import Mathlib

/-!
Verification development for the CulinaryVisionMVP repository.

The embedding covers:
* `renderInstructionText` from components/RecipeCard.tsx — the scan of an
  instruction string with the JavaScript regular expression
  (word boundary)(digits, optional dash digits)(spaces)(time unit)(word boundary)
  with flags g and i, and the conversion of each match into a timer trigger;
* the countdown timer state of components/TimerOverlay.tsx;
* the application state machine of the root App component (view states,
  handlers, servings, ingredient editing, reset);
* the two service functions of services/geminiService.ts, with the JSON
  parse step abstracted as a function parameter.
-/

namespace CulinaryVision

/-! ## Character classes of the JavaScript regular expression -/

/-- JavaScript word character for the boundary assertion: ASCII letters,
digits and underscore. -/
def isWordChar (c : Char) : Bool :=
  c.isAlpha || c.isDigit || c = '_'

/-- JavaScript digit class: ASCII digits only. -/
def isDigitChar (c : Char) : Bool :=
  c.isDigit

/-- JavaScript whitespace class (the class matched by backslash-s and
trimmed by String.prototype.trim). -/
def isSpaceJS (c : Char) : Bool :=
  c = ' ' || c = '\t' || c = '\n' || c = '\r' ||
  c = '\u000B' || c = '\u000C' ||
  c = '\u00A0' || c = '\u1680' ||
  ('\u2000' ≤ c && c ≤ '\u200A') ||
  c = '\u2028' || c = '\u2029' || c = '\u202F' ||
  c = '\u205F' || c = '\u3000' || c = '\uFEFF'

/-! ## Positions, boundaries and greedy runs over a list of characters -/

/-- Whether the character at index `i` is a word character; out of range
counts as not a word character. -/
def wordAt (s : List Char) (i : Nat) : Bool :=
  match s.get? i with
  | some c => isWordChar c
  | none => false

/-- Word boundary at position `i` (a position sits between characters
`i - 1` and `i`; the ends of the string count as non-word). -/
def isBoundary (s : List Char) (i : Nat) : Bool :=
  match i with
  | 0 => wordAt s 0
  | j + 1 => wordAt s j != wordAt s (j + 1)

/-- Length of the maximal run of characters satisfying `p` starting at
index `i`. -/
def runLen (p : Char → Bool) (s : List Char) (i : Nat) : Nat :=
  ((s.drop i).takeWhile p).length

/-- The segment of `s` of length `n` starting at index `i`. -/
def seg (s : List Char) (i n : Nat) : List Char :=
  (s.drop i).take n

/-! ## The unit alternation -/

/-- The alternatives of the unit group in the order the regular expression
tries them: each stem with the optional plural s is greedy, so the plural
comes first. -/
def unitAlts : List (List Char) :=
  [ ['h','o','u','r','s'], ['h','o','u','r'],
    ['h','r','s'], ['h','r'],
    ['m','i','n','u','t','e','s'], ['m','i','n','u','t','e'],
    ['m','i','n','s'], ['m','i','n'],
    ['s','e','c','o','n','d','s'], ['s','e','c','o','n','d'],
    ['s','e','c','s'], ['s','e','c'] ]

/-- Whether `pat` is an initial segment of `l` (exact characters). -/
def hasLead : List Char → List Char → Bool
  | [], _ => true
  | _ :: _, [] => false
  | a :: as, b :: bs => a = b && hasLead as bs

/-- Whether `pat` (given in lower case) is an initial segment of `l` up to
ASCII case folding, which is the case-insensitivity the regular expression
applies to its ASCII alternatives. -/
def ciLead : List Char → List Char → Bool
  | [], _ => true
  | _ :: _, [] => false
  | a :: as, b :: bs => b.toLower = a && ciLead as bs

/-- First unit alternative that matches case-insensitively at index `j` and
is followed by a word boundary (the closing boundary of the regular
expression). Returns the lower-cased alternative. -/
def findUnit (s : List Char) (j : Nat) : Option (List Char) :=
  unitAlts.find? (fun alt => ciLead alt (s.drop j) && isBoundary s (j + alt.length))

/-! ## A single match attempt at a fixed position

The greedy subpatterns of the regular expression are deterministic here:
the digit runs and the whitespace run can never profitably give back
characters, because a digit cannot continue the dash group or the unit,
and a whitespace character cannot start the unit. The dash group, when a
dash with at least one digit follows the first run, must be taken, because
otherwise the dash blocks both the whitespace run and the unit. -/

/-- Data of one regular-expression match: length of the number part
(digits, or digits dash digits), length of the whitespace run, and the
lower-cased unit alternative. -/
structure MatchData where
  numLen : Nat
  spLen : Nat
  unit : List Char
  deriving DecidableEq, Repr

/-- Total length of the matched substring. -/
def MatchData.len (md : MatchData) : Nat :=
  md.numLen + md.spLen + md.unit.length

/-- Length of the number part at position `i`: the greedy digit run,
extended by a dash and a second digit run when one follows (the optional
range group of the regular expression). -/
def numLenAt (s : List Char) (i : Nat) : Nat :=
  let d1 := runLen isDigitChar s i
  if s.get? (i + d1) = some '-' then
    let d2 := runLen isDigitChar s (i + d1 + 1)
    if d2 = 0 then d1 else d1 + 1 + d2
  else d1

/-- Attempt to match the regular expression at position `i`. -/
def matchAt (s : List Char) (i : Nat) : Option MatchData :=
  if isBoundary s i then
    if runLen isDigitChar s i = 0 then none
    else
      let n := numLenAt s i
      let sp := runLen isSpaceJS s (i + n)
      match findUnit s (i + n + sp) with
      | some alt => some ⟨n, sp, alt⟩
      | none => none
  else none

/-- Leftmost match at position `i` or later, as the exec call of a global
regular expression finds it starting from lastIndex. -/
def findMatchFrom (s : List Char) (i : Nat) : Option (Nat × MatchData) :=
  match matchAt s i with
  | some md => some (i, md)
  | none =>
      if h : i < s.length then findMatchFrom s (i + 1) else none
  termination_by s.length - i

/-! ## Bounds for the scanner -/

theorem takeWhile_len_le (p : Char → Bool) (l : List Char) :
    (l.takeWhile p).length ≤ l.length := by
  induction l with
  | nil => simp
  | cons a l ih =>
    by_cases h : p a
    · simp [List.takeWhile, h]; omega
    · simp [List.takeWhile, h]

theorem runLen_le (p : Char → Bool) (s : List Char) (i : Nat) :
    runLen p s i ≤ s.length - i := by
  have h := takeWhile_len_le p (s.drop i)
  simpa [runLen, List.length_drop] using h

theorem runLen_pos_lt (p : Char → Bool) (s : List Char) (i : Nat)
    (h : runLen p s i ≠ 0) : i < s.length := by
  by_contra hc
  have hd : s.drop i = [] := List.drop_eq_nil_of_le (by omega)
  simp [runLen, hd] at h

theorem ciLead_len_le :
    ∀ pat l : List Char, ciLead pat l = true → pat.length ≤ l.length := by
  intro pat
  induction pat with
  | nil => intro l _; simp
  | cons a as ih =>
    intro l h
    cases l with
    | nil => simp [ciLead] at h
    | cons b bs =>
      simp only [ciLead, Bool.and_eq_true] at h
      have := ih bs h.2
      simp only [List.length_cons]
      omega

theorem findUnit_sound (s : List Char) (j : Nat) (alt : List Char)
    (h : findUnit s j = some alt) :
    alt ∈ unitAlts ∧ ciLead alt (s.drop j) = true := by
  refine ⟨List.mem_of_find?_eq_some h, ?_⟩
  have hp := List.find?_some h
  simp only [Bool.and_eq_true] at hp
  exact hp.1

theorem matchAt_sound (s : List Char) (i : Nat) (md : MatchData)
    (h : matchAt s i = some md) :
    0 < md.numLen ∧ i + md.len ≤ s.length := by
  unfold matchAt at h
  by_cases hb : isBoundary s i
  · rw [if_pos hb] at h
    by_cases hd1 : runLen isDigitChar s i = 0
    · rw [if_pos hd1] at h; exact absurd h (by simp)
    · rw [if_neg hd1] at h
      simp only at h
      have hi : i < s.length := runLen_pos_lt _ _ _ hd1
      have hd1le := runLen_le isDigitChar s i
      -- bound for the number part
      have hnum : 0 < numLenAt s i ∧ i + numLenAt s i ≤ s.length := by
        unfold numLenAt
        by_cases hdash : s.get? (i + runLen isDigitChar s i) = some '-'
        · rw [if_pos hdash]
          have hlt : i + runLen isDigitChar s i < s.length := by
            rcases List.get?_eq_some.mp hdash with ⟨hlt, _⟩
            exact hlt
          have hd2le := runLen_le isDigitChar s (i + runLen isDigitChar s i + 1)
          by_cases hd2 : runLen isDigitChar s (i + runLen isDigitChar s i + 1) = 0
          · rw [if_pos hd2]; omega
          · rw [if_neg hd2]; omega
        · rw [if_neg hdash]; omega
      have hsple := runLen_le isSpaceJS s (i + numLenAt s i)
      rcases hu : findUnit s (i + numLenAt s i + runLen isSpaceJS s (i + numLenAt s i)) with _ | alt
      · rw [hu] at h; exact absurd h (by simp)
      · rw [hu] at h
        have halt := findUnit_sound _ _ _ hu
        have hlen := ciLead_len_le _ _ halt.2
        rw [List.length_drop] at hlen
        have hmd : md = ⟨numLenAt s i, runLen isSpaceJS s (i + numLenAt s i), alt⟩ := by
          cases h; rfl
        subst hmd
        simp only [MatchData.len]
        omega
  · rw [if_neg hb] at h; exact absurd h (by simp)

theorem findMatchFrom_sound (s : List Char) :
    ∀ i j : Nat, ∀ md : MatchData,
      findMatchFrom s i = some (j, md) → i ≤ j ∧ matchAt s j = some md := by
  intro i
  induction i using findMatchFrom.induct s with
  | case1 i md' hm =>
    intro j md h
    rw [findMatchFrom, hm] at h
    cases h
    exact ⟨Nat.le_refl _, hm⟩
  | case2 i hm hlt ih =>
    intro j md h
    rw [findMatchFrom, hm, dif_pos hlt] at h
    have := ih j md h
    exact ⟨by omega, this.2⟩
  | case3 i hm hlt =>
    intro j md h
    rw [findMatchFrom, hm, dif_neg hlt] at h
    exact absurd h (by simp)

/-! ## The parts emitted by renderInstructionText -/

/-- One emitted part: either plain text or a timer trigger button whose
label is the full matched phrase and whose payload is the duration in
seconds. -/
inductive Part where
  | text (chars : List Char)
  | timer (label : List Char) (seconds : Nat)
  deriving DecidableEq, Repr

/-- Value of a digit string in base 10, as parseInt computes it on a string
of digits. -/
def digitsToNat (l : List Char) : Nat :=
  l.foldl (fun a c => a * 10 + (c.toNat - 48)) 0

/-- Value renderInstructionText extracts from the number part: parseInt of
the text before the first dash, which is the lower bound of a range. -/
def lowerVal (num : List Char) : Nat :=
  digitsToNat (num.takeWhile (fun c => c ≠ '-'))

/-- Multiplier renderInstructionText chooses: 60 by default, then 1 when
the lower-cased unit starts with sec, then 3600 when it starts with hour
or hr. -/
def multiplier (u : List Char) : Nat :=
  let m := 60
  let m := if hasLead ['s','e','c'] u then 1 else m
  let m := if hasLead ['h','o','u','r'] u || hasLead ['h','r'] u then 3600 else m
  m

/-- The scan loop of renderInstructionText from lastIndex `i`: text before
each match is pushed as plain text, a match with positive seconds becomes a
timer button labelled with the full match, a match with zero seconds is
pushed back as plain text, and the text after the last match is pushed at
the end. -/
def renderLoop (s : List Char) (i : Nat) : List Part :=
  match h : findMatchFrom s i with
  | some (j, md) =>
      (if i < j then [Part.text (seg s i (j - i))] else []) ++
      (if 0 < lowerVal (seg s j md.numLen) * multiplier md.unit
       then Part.timer (seg s j md.len) (lowerVal (seg s j md.numLen) * multiplier md.unit)
       else Part.text (seg s j md.len)) ::
      renderLoop s (j + md.len)
  | none =>
      if i < s.length then [Part.text (s.drop i)] else []
  termination_by s.length - i
  decreasing_by
    have hs := findMatchFrom_sound s i j md h
    have hm := matchAt_sound s j md hs.2
    have hl : md.len = md.numLen + md.spLen + md.unit.length := rfl
    omega

/-- Parts renderInstructionText emits for one instruction string. -/
def renderInstructionText (s : List Char) : List Part :=
  renderLoop s 0

/-- The successive matches the global regular expression finds in `s`
starting from position `i`, each with its start index. -/
def matchList (s : List Char) (i : Nat) : List (Nat × MatchData) :=
  match h : findMatchFrom s i with
  | some (j, md) => (j, md) :: matchList s (j + md.len)
  | none => []
  termination_by s.length - i
  decreasing_by
    have hs := findMatchFrom_sound s i j md h
    have hm := matchAt_sound s j md hs.2
    have hl : md.len = md.numLen + md.spLen + md.unit.length := rfl
    omega

/-! ## Claim-side description of the conversion (C1) -/

/-- Unit factor as claim C1 words it: 3600 for the hour units, 60 for the
minute units, 1 for the second units. -/
def unitFactor (u : List Char) : Nat :=
  if u = ['h','o','u','r','s'] ∨ u = ['h','o','u','r'] ∨
     u = ['h','r','s'] ∨ u = ['h','r'] then 3600
  else if u = ['m','i','n','u','t','e','s'] ∨ u = ['m','i','n','u','t','e'] ∨
          u = ['m','i','n','s'] ∨ u = ['m','i','n'] then 60
  else 1

/-- Conversion claim C1 describes, applied to the list of matches: the text
between matches stays plain, each match becomes a timer trigger labelled
with the full matched phrase whose duration is the lower bound of the
number range times the unit factor, and a match whose duration is zero
stays plain text. -/
def assemble (s : List Char) (i : Nat) : List (Nat × MatchData) → List Part
  | [] => if i < s.length then [Part.text (s.drop i)] else []
  | (j, md) :: rest =>
      (if i < j then [Part.text (seg s i (j - i))] else []) ++
      (if 0 < lowerVal (seg s j md.numLen) * unitFactor md.unit
       then Part.timer (seg s j md.len) (lowerVal (seg s j md.numLen) * unitFactor md.unit)
       else Part.text (seg s j md.len)) ::
      assemble s (j + md.len) rest

/-- Characters a part carries: the text itself, or the label of a timer
trigger. -/
def partChars : Part → List Char
  | .text cs => cs
  | .timer label _ => label

/-- Concatenation of the characters of all emitted parts. -/
def partsConcat (ps : List Part) : List Char :=
  (ps.map partChars).flatten

theorem matchAt_unit_mem (s : List Char) (i : Nat) (md : MatchData)
    (h : matchAt s i = some md) : md.unit ∈ unitAlts := by
  unfold matchAt at h
  by_cases hb : isBoundary s i
  · rw [if_pos hb] at h
    by_cases hd1 : runLen isDigitChar s i = 0
    · rw [if_pos hd1] at h; exact absurd h (by simp)
    · rw [if_neg hd1] at h
      simp only at h
      rcases hu : findUnit s (i + numLenAt s i +
          runLen isSpaceJS s (i + numLenAt s i)) with _ | alt
      · rw [hu] at h; exact absurd h (by simp)
      · rw [hu] at h
        have halt := findUnit_sound _ _ _ hu
        cases h
        exact halt.1
  · rw [if_neg hb] at h; exact absurd h (by simp)

theorem multiplier_eq_unitFactor (u : List Char) (h : u ∈ unitAlts) :
    multiplier u = unitFactor u := by
  fin_cases h <;> rfl

/-! ## Unfolding lemmas for the scan loop -/

theorem renderLoop_some (s : List Char) (i j : Nat) (md : MatchData)
    (h : findMatchFrom s i = some (j, md)) :
    renderLoop s i =
      (if i < j then [Part.text (seg s i (j - i))] else []) ++
      (if 0 < lowerVal (seg s j md.numLen) * multiplier md.unit
       then Part.timer (seg s j md.len) (lowerVal (seg s j md.numLen) * multiplier md.unit)
       else Part.text (seg s j md.len)) ::
      renderLoop s (j + md.len) := by
  rw [renderLoop.eq_def]
  split
  next j' md' heq => rw [h] at heq; cases heq; rfl
  next heq => rw [h] at heq; cases heq

theorem renderLoop_none (s : List Char) (i : Nat)
    (h : findMatchFrom s i = none) :
    renderLoop s i = if i < s.length then [Part.text (s.drop i)] else [] := by
  rw [renderLoop.eq_def]
  split
  next j' md' heq => rw [h] at heq; cases heq
  next heq => rfl

theorem matchList_some (s : List Char) (i j : Nat) (md : MatchData)
    (h : findMatchFrom s i = some (j, md)) :
    matchList s i = (j, md) :: matchList s (j + md.len) := by
  rw [matchList.eq_def]
  split
  next j' md' heq => rw [h] at heq; cases heq; rfl
  next heq => rw [h] at heq; cases heq

theorem matchList_none (s : List Char) (i : Nat)
    (h : findMatchFrom s i = none) :
    matchList s i = [] := by
  rw [matchList.eq_def]
  split
  next j' md' heq => rw [h] at heq; cases heq
  next heq => rfl

/-! ## Segment algebra -/

theorem seg_append_drop (s : List Char) (i j : Nat) (hij : i ≤ j) :
    seg s i (j - i) ++ s.drop j = s.drop i := by
  have h1 : s.drop j = (s.drop i).drop (j - i) := by
    rw [List.drop_drop]
    congr 1
    omega
  rw [seg, h1, List.take_append_drop]

theorem seg_len_append_drop (s : List Char) (j n : Nat) :
    seg s j n ++ s.drop (j + n) = s.drop j := by
  have h1 : s.drop (j + n) = (s.drop j).drop n := by
    rw [List.drop_drop]
  rw [seg, h1, List.take_append_drop]

theorem partsConcat_append (a b : List Part) :
    partsConcat (a ++ b) = partsConcat a ++ partsConcat b := by
  simp [partsConcat]

theorem partsConcat_cons (p : Part) (rest : List Part) :
    partsConcat (p :: rest) = partChars p ++ partsConcat rest := by
  simp [partsConcat]

/-! ## The two scan theorems -/

theorem renderLoop_eq_assemble (s : List Char) (i : Nat) :
    renderLoop s i = assemble s i (matchList s i) := by
  induction i using renderLoop.induct s with
  | case1 i j md hfm ih =>
    have hmem := matchAt_unit_mem s j md (findMatchFrom_sound s i j md hfm).2
    rw [renderLoop_some s i j md hfm, matchList_some s i j md hfm, assemble,
      multiplier_eq_unitFactor md.unit hmem, ih]
  | case2 i hfm hlt =>
    rw [renderLoop_none s i hfm, matchList_none s i hfm, assemble]
  | case3 i hfm hlt =>
    rw [renderLoop_none s i hfm, matchList_none s i hfm, assemble]

theorem partsConcat_renderLoop (s : List Char) (i : Nat) :
    partsConcat (renderLoop s i) = s.drop i := by
  induction i using renderLoop.induct s with
  | case1 i j md hfm ih =>
    have hij := (findMatchFrom_sound s i j md hfm).1
    rw [renderLoop_some s i j md hfm, partsConcat_append, partsConcat_cons, ih]
    have hpre : partsConcat (if i < j then [Part.text (seg s i (j - i))] else []) =
        seg s i (j - i) := by
      by_cases hlt : i < j
      · rw [if_pos hlt]; simp [partsConcat, partChars]
      · have hji : j = i := by omega
        rw [if_neg hlt, hji]
        simp [partsConcat, seg]
    have hpiece : partChars
        (if 0 < lowerVal (seg s j md.numLen) * multiplier md.unit
         then Part.timer (seg s j md.len) (lowerVal (seg s j md.numLen) * multiplier md.unit)
         else Part.text (seg s j md.len)) = seg s j md.len := by
      by_cases hs : 0 < lowerVal (seg s j md.numLen) * multiplier md.unit
      · rw [if_pos hs]; rfl
      · rw [if_neg hs]; rfl
    rw [hpre, hpiece, seg_len_append_drop, seg_append_drop s i j hij]
  | case2 i hfm hlt =>
    rw [renderLoop_none s i hfm, if_pos hlt]
    simp [partsConcat, partChars]
  | case3 i hfm hlt =>
    rw [renderLoop_none s i hfm, if_neg hlt]
    have hnil : s.drop i = [] := List.drop_eq_nil_of_le (by omega)
    simp [partsConcat, hnil]

/-- C1: For every instruction string, the instruction renderer converts each
substring matching a number (optionally a dash-separated range) followed by
a time unit (hours, hrs, minutes, mins, seconds, secs, singular or plural,
case-insensitive, on word boundaries) into a timer trigger whose duration
in seconds equals the lower bound of the number range times 1 for seconds,
60 for minutes, and 3600 for hours; a match whose computed duration is 0 is
left as plain text rather than becoming a trigger. Formally: the renderer
output equals the claim-side conversion applied to the list of matches of
the pattern. -/
theorem C1_duration_phrases_become_timers (s : List Char) :
    renderInstructionText s = assemble s 0 (matchList s 0) := by
  rw [renderInstructionText, renderLoop_eq_assemble]

/-- C9: The instruction renderer preserves the instruction text: for every
input string, concatenating the emitted parts in order, plain text segments
and the label of each timer trigger, yields exactly the original input
string. -/
theorem C9_render_preserves_text (s : List Char) :
    partsConcat (renderInstructionText s) = s := by
  rw [renderInstructionText, partsConcat_renderLoop, List.drop_zero]

/-! ## The countdown timer of TimerOverlay -/

/-- State of the countdown timer: the seconds left, whether the countdown
is running, and whether it has finished. -/
structure TimerState where
  timeLeft : Nat
  isActive : Bool
  isFinished : Bool
  deriving DecidableEq, Repr

/-- The effect reacting to isActive and timeLeft: when timeLeft has become
0 it marks the timer finished and stops it; otherwise, for a running timer,
it only re-arms the interval, leaving the state alone. -/
def timerEffect (st : TimerState) : TimerState :=
  if st.timeLeft = 0 then { st with isFinished := true, isActive := false } else st

/-- One second elapsing: while the timer is active with time left the
interval decrements timeLeft and the effect reacts to the new value; in any
other state no interval is armed and nothing happens. -/
def tick (st : TimerState) : TimerState :=
  if st.isActive && decide (0 < st.timeLeft)
  then timerEffect { st with timeLeft := st.timeLeft - 1 }
  else st

/-- The toggle button of the overlay: restart from a finished timer,
otherwise flip between running and paused. -/
def toggleTimer (durationSeconds : Nat) (st : TimerState) : TimerState :=
  if st.isFinished then
    { timeLeft := durationSeconds, isFinished := false, isActive := true }
  else
    { st with isActive := !st.isActive }

/-- The reset button of the overlay: full duration back, paused, not
finished. -/
def resetTimer (durationSeconds : Nat) (st : TimerState) : TimerState :=
  { timeLeft := durationSeconds, isActive := false, isFinished := false }

/-- C2: The countdown timer satisfies: while isActive holds and timeLeft is
positive, a one-second tick decreases timeLeft by exactly 1; when timeLeft
reaches 0 the timer becomes finished and inactive; the toggle operation
pauses when active, resumes when paused, and when finished restarts with
timeLeft set back to the full durationSeconds; the reset operation sets
timeLeft to durationSeconds and makes the timer inactive and not
finished. -/
theorem C2_timer_state_machine (st : TimerState) (d : Nat) :
    (st.isActive = true → 0 < st.timeLeft → (tick st).timeLeft = st.timeLeft - 1) ∧
    (st.isActive = true → st.timeLeft = 1 →
      tick st = { timeLeft := 0, isActive := false, isFinished := true }) ∧
    (st.isFinished = false → st.isActive = true →
      (toggleTimer d st).isActive = false ∧ (toggleTimer d st).timeLeft = st.timeLeft) ∧
    (st.isFinished = false → st.isActive = false →
      (toggleTimer d st).isActive = true ∧ (toggleTimer d st).timeLeft = st.timeLeft) ∧
    (st.isFinished = true →
      toggleTimer d st = { timeLeft := d, isActive := true, isFinished := false }) ∧
    resetTimer d st = { timeLeft := d, isActive := false, isFinished := false } := by
  obtain ⟨t, a, f⟩ := st
  refine ⟨?_, ?_, ?_, ?_, ?_, rfl⟩
  · intro ha ht
    have ha' : a = true := ha
    have ht' : 0 < t := ht
    subst ha'
    simp only [tick, timerEffect]
    rw [if_pos (by simp [ht'])]
    split <;> rfl
  · intro ha ht
    have ha' : a = true := ha
    have ht' : t = 1 := ht
    subst ha'
    subst ht'
    rfl
  · intro hf ha
    have hf' : f = false := hf
    have ha' : a = true := ha
    subst hf'
    subst ha'
    exact ⟨rfl, rfl⟩
  · intro hf ha
    have hf' : f = false := hf
    have ha' : a = false := ha
    subst hf'
    subst ha'
    exact ⟨rfl, rfl⟩
  · intro hf
    have hf' : f = true := hf
    subst hf'
    rfl

/-- Witness for C2 at concrete states: a running timer at 5 ticks to 4, a
running timer at 1 finishes, toggle pauses a running timer, resumes a
paused one, restarts a finished one, and reset restores the duration. -/
theorem C2_timer_state_machine_witness :
    (tick { timeLeft := 5, isActive := true, isFinished := false }).timeLeft = 5 - 1 ∧
    tick { timeLeft := 1, isActive := true, isFinished := false } =
      { timeLeft := 0, isActive := false, isFinished := true } ∧
    (toggleTimer 7 { timeLeft := 3, isActive := true, isFinished := false }).isActive
      = false ∧
    (toggleTimer 7 { timeLeft := 3, isActive := false, isFinished := false }).isActive
      = true ∧
    toggleTimer 7 { timeLeft := 0, isActive := false, isFinished := true } =
      { timeLeft := 7, isActive := true, isFinished := false } ∧
    resetTimer 7 { timeLeft := 3, isActive := true, isFinished := false } =
      { timeLeft := 7, isActive := false, isFinished := false } := by
  have h5 := C2_timer_state_machine { timeLeft := 5, isActive := true, isFinished := false } 7
  have h1 := C2_timer_state_machine { timeLeft := 1, isActive := true, isFinished := false } 7
  have h3 := C2_timer_state_machine { timeLeft := 3, isActive := true, isFinished := false } 7
  have h3p := C2_timer_state_machine { timeLeft := 3, isActive := false, isFinished := false } 7
  have h0 := C2_timer_state_machine { timeLeft := 0, isActive := false, isFinished := true } 7
  exact ⟨h5.1 rfl (by decide), h1.2.1 rfl rfl, (h3.2.2.1 rfl rfl).1,
    (h3p.2.2.2.1 rfl rfl).1, h0.2.2.2.2.1 rfl, h3.2.2.2.2.2⟩

/-! ## Data types of the application -/

/-- View states of the App component. -/
inductive LoadingState where
  | IDLE
  | CAPTURING
  | ANALYZING
  | REVIEW_INGREDIENTS
  | FETCHING_RECIPES
  | SHOWING_RESULTS
  | ERROR
  deriving DecidableEq, Repr

/-- An ingredient record: a name and a quantity. -/
structure Ingredient where
  name : String
  quantity : String
  deriving DecidableEq, Repr

/-- Nutrition facts of a recipe, all strings. -/
structure NutritionalInfo where
  calories : String
  protein : String
  carbs : String
  fat : String
  deriving DecidableEq, Repr

/-- A generated recipe record. -/
structure Recipe where
  recipeName : String
  description : String
  ingredients : List String
  instructions : List String
  nutritionalInfo : NutritionalInfo
  prepTime : String
  deriving DecidableEq, Repr

/-- JavaScript String.prototype.trim: strip the whitespace class from both
ends. -/
def jsTrim (s : String) : String :=
  ⟨((s.data.dropWhile isSpaceJS).reverse.dropWhile isSpaceJS).reverse⟩

/-- The session state the App component keeps in its hooks. -/
structure AppState where
  loadingState : LoadingState
  images : List String
  ingredients : List Ingredient
  recipes : List Recipe
  error : Option String
  servings : Int
  cuisine : String
  newIngredientInput : String
  deriving DecidableEq, Repr

/-- The initial values of the hooks. -/
def initState : AppState :=
  { loadingState := .IDLE, images := [], ingredients := [], recipes := [],
    error := none, servings := 1, cuisine := "Open", newIngredientInput := "" }

/-- Message handleStartCamera surfaces when getUserMedia fails. -/
def cameraErrorMsg : String :=
  "Could not access the camera. Please check permissions and try again."

/-- Message handleAnalyze surfaces when the identified list is empty. -/
def noIngredientsMsg : String :=
  "No ingredients could be identified. Please try clearer pictures with well-lit ingredients."

/-- The addIngredient handler: when the trimmed input is nonempty, append
it as an ingredient with empty quantity and clear the input; otherwise do
nothing. -/
def addIngredient (st : AppState) : AppState :=
  if jsTrim st.newIngredientInput ≠ "" then
    { st with
      ingredients := st.ingredients ++
        [{ name := jsTrim st.newIngredientInput, quantity := "" }],
      newIngredientInput := "" }
  else st

/-- Events driving the App state: one per user action and per asynchronous
completion the handlers react to. startCamera, analyzeStart and
generateStart are the synchronous beginnings of the async handlers;
cameraFail, analyzeDone and generateDone deliver their outcomes. A
fileReadFail event models the FileReader error event, for which the code
attaches no handler. -/
inductive Ev where
  | startCamera
  | cameraFail
  | capture (img : String)
  | cancelCapture
  | fileLoaded (img : String)
  | fileReadFail
  | removeImage (i : Nat)
  | analyzeStart
  | analyzeDone (res : Except String (List Ingredient))
  | generateStart
  | generateDone (res : Except String (List Recipe))
  | incServings
  | decServings
  | setCuisine (c : String)
  | setInput (text : String)
  | addIng
  | removeIng (i : Nat)
  | reset
  deriving Repr

/-- Whether the home screen (the IDLE and ERROR branches of the render
switch, which render the same controls) is showing. -/
def onHome (st : AppState) : Bool :=
  st.loadingState == .IDLE || st.loadingState == .ERROR

/-- Whether the interface can emit the event in the given state, read off
the render switch of the App component: which view state renders which
controls, which buttons are disabled, and in which state each asynchronous
completion arrives. -/
def enabled (ev : Ev) (st : AppState) : Bool :=
  match ev with
  | .startCamera => onHome st
  | .cameraFail => st.loadingState == .CAPTURING
  | .capture _ => st.loadingState == .CAPTURING
  | .cancelCapture => st.loadingState == .CAPTURING
  | .fileLoaded _ => onHome st
  | .fileReadFail => onHome st
  | .removeImage _ => onHome st
  | .analyzeStart => onHome st && !st.images.isEmpty
  | .analyzeDone _ => st.loadingState == .ANALYZING
  | .generateStart => st.loadingState == .REVIEW_INGREDIENTS && !st.ingredients.isEmpty
  | .generateDone _ => st.loadingState == .FETCHING_RECIPES
  | .incServings => onHome st
  | .decServings => onHome st
  | .setCuisine _ => onHome st
  | .setInput _ => st.loadingState == .REVIEW_INGREDIENTS
  | .addIng => st.loadingState == .REVIEW_INGREDIENTS
  | .removeIng _ => st.loadingState == .REVIEW_INGREDIENTS
  | .reset => st.loadingState == .REVIEW_INGREDIENTS || st.loadingState == .SHOWING_RESULTS

/-- The state update each handler performs. -/
def step (ev : Ev) (st : AppState) : AppState :=
  match ev with
  | .startCamera => { st with error := none, loadingState := .CAPTURING }
  | .cameraFail => { st with error := some cameraErrorMsg, loadingState := .ERROR }
  | .capture img => { st with images := st.images ++ [img], loadingState := .IDLE }
  | .cancelCapture => { st with loadingState := .IDLE }
  | .fileLoaded img => { st with images := st.images ++ [img] }
  | .fileReadFail => st
  | .removeImage i => { st with images := st.images.eraseIdx i }
  | .analyzeStart =>
      if st.images.isEmpty then st else { st with loadingState := .ANALYZING }
  | .analyzeDone res =>
      match res with
      | .error msg => { st with error := some msg, loadingState := .ERROR }
      | .ok ings =>
          if ings.isEmpty then
            { st with error := some noIngredientsMsg, loadingState := .ERROR }
          else { st with ingredients := ings, loadingState := .REVIEW_INGREDIENTS }
  | .generateStart => { st with loadingState := .FETCHING_RECIPES }
  | .generateDone res =>
      match res with
      | .error msg => { st with error := some msg, loadingState := .ERROR }
      | .ok rs => { st with recipes := rs, loadingState := .SHOWING_RESULTS }
  | .incServings => { st with servings := st.servings + 1 }
  | .decServings => { st with servings := max 1 (st.servings - 1) }
  | .setCuisine c => { st with cuisine := c }
  | .setInput text => { st with newIngredientInput := text }
  | .addIng => addIngredient st
  | .removeIng i => { st with ingredients := st.ingredients.eraseIdx i }
  | .reset => initState

/-- States reachable from the initial state through enabled events. -/
inductive Reachable : AppState → Prop where
  | init : Reachable initState
  | next (st : AppState) (ev : Ev) : Reachable st → enabled ev st = true →
      Reachable (step ev st)

/-! ## The view-state transition discipline (C3) -/

/-- Consecutive edges of the sequence idle, capturing, analyzing,
reviewing, fetching, showing-results. -/
def seqEdge (a b : LoadingState) : Bool :=
  (a == .IDLE && b == .CAPTURING) ||
  (a == .CAPTURING && b == .ANALYZING) ||
  (a == .ANALYZING && b == .REVIEW_INGREDIENTS) ||
  (a == .REVIEW_INGREDIENTS && b == .FETCHING_RECIPES) ||
  (a == .FETCHING_RECIPES && b == .SHOWING_RESULTS)

/-- The transitions claim C3 allows: the sequence, edges into the error
state, and edges back to idle (cancel and capture from capturing, reset
from any state). -/
def specAllowed (a b : LoadingState) : Bool :=
  seqEdge a b || b == .ERROR || b == .IDLE

/-- Claim C3 as stated, over the modelled handlers: every state-changing
enabled transition is among the allowed ones. -/
def c3Claim : Prop :=
  ∀ ev : Ev, ∀ st : AppState, enabled ev st = true →
    (step ev st).loadingState ≠ st.loadingState →
    specAllowed st.loadingState (step ev st).loadingState = true

/-- A home state with one staged image (uploaded or captured earlier). -/
def stWithImage : AppState := { initState with images := ["stagedImage"] }

/-- C3 fails as stated: from idle with a staged image the analyze button is
enabled and its handler sends the machine directly to analyzing, skipping
the capturing stage, which the claimed transition discipline forbids. -/
theorem C3_counterexample : ¬ c3Claim := by
  intro h
  have hc := h .analyzeStart stWithImage (by decide) (by decide)
  exact absurd hc (by decide)

/-- The transitions as amended: the set of claim C3 plus the direct analyze
edge from idle (the upload path never passes through capturing) and the two
retry edges out of the error screen (the camera or the analysis can be
started again without a reset). -/
def amendedAllowed (a b : LoadingState) : Bool :=
  specAllowed a b ||
  (a == .IDLE && b == .ANALYZING) ||
  (a == .ERROR && b == .CAPTURING) ||
  (a == .ERROR && b == .ANALYZING)

/-- C3 (amended): every state-changing transition an enabled handler takes
follows the sequence idle to capturing to analyzing to reviewing to
fetching to showing-results, or enters the error state, or returns to
idle, or starts the analysis directly from idle (upload path), or retries
capturing or analyzing from the error state. -/
theorem C3_amended_transitions (ev : Ev) (st : AppState)
    (he : enabled ev st = true)
    (hch : (step ev st).loadingState ≠ st.loadingState) :
    amendedAllowed st.loadingState (step ev st).loadingState = true := by
  cases ev <;>
    simp only [enabled, onHome, step, Bool.or_eq_true, Bool.and_eq_true,
      beq_iff_eq] at he hch ⊢
  case startCamera =>
    rcases he with h | h <;>
      simp [amendedAllowed, specAllowed, seqEdge, h]
  case cameraFail =>
    simp [amendedAllowed, specAllowed, seqEdge, he]
  case capture img =>
    simp [amendedAllowed, specAllowed, seqEdge, he]
  case cancelCapture =>
    simp [amendedAllowed, specAllowed, seqEdge, he]
  case fileLoaded img =>
    exact absurd rfl hch
  case fileReadFail =>
    exact absurd rfl hch
  case removeImage i =>
    exact absurd rfl hch
  case analyzeStart =>
    obtain ⟨hh, him⟩ := he
    have hne : ¬ st.images.isEmpty = true := by simp_all
    rw [if_neg hne] at hch ⊢
    rcases hh with h | h <;> simp [amendedAllowed, specAllowed, seqEdge, h]
  case analyzeDone res =>
    rcases res with msg | ings
    · simp [amendedAllowed, specAllowed, seqEdge, he]
    · by_cases hi : ings.isEmpty <;>
        simp only [hi, if_true, if_false, Bool.false_eq_true] at hch ⊢ <;>
        simp [amendedAllowed, specAllowed, seqEdge, he, hi]
  case generateStart =>
    simp [amendedAllowed, specAllowed, seqEdge, he.1]
  case generateDone res =>
    rcases res with msg | rs <;>
      simp [amendedAllowed, specAllowed, seqEdge, he]
  case incServings =>
    exact absurd rfl hch
  case decServings =>
    exact absurd rfl hch
  case setCuisine c =>
    exact absurd rfl hch
  case setInput text =>
    exact absurd rfl hch
  case addIng =>
    unfold addIngredient at hch
    split at hch <;> exact absurd rfl hch
  case removeIng i =>
    exact absurd rfl hch
  case reset =>
    rcases he with h | h <;> simp [amendedAllowed, specAllowed, seqEdge, initState, h]

/-- Witness for C3 (amended) at a concrete transition: starting the camera
from the initial idle state. -/
theorem C3_amended_transitions_witness :
    enabled .startCamera initState = true ∧
    (step .startCamera initState).loadingState ≠ initState.loadingState ∧
    amendedAllowed initState.loadingState (step .startCamera initState).loadingState
      = true := by
  exact ⟨by decide, by decide,
    C3_amended_transitions .startCamera initState (by decide) (by decide)⟩

/-! ## Error surfacing (C4) -/

/-- Claim C4 as stated: every error event, from the camera, from the file
reader, or from either AI call, puts the machine in the error state with a
non-null error message. -/
def c4Claim : Prop :=
  ∀ st : AppState, ∀ msg : String,
    ((step .cameraFail st).loadingState = .ERROR ∧
      (step .cameraFail st).error ≠ none) ∧
    ((step .fileReadFail st).loadingState = .ERROR ∧
      (step .fileReadFail st).error ≠ none) ∧
    ((step (.analyzeDone (.error msg)) st).loadingState = .ERROR ∧
      (step (.analyzeDone (.error msg)) st).error ≠ none) ∧
    ((step (.generateDone (.error msg)) st).loadingState = .ERROR ∧
      (step (.generateDone (.error msg)) st).error ≠ none)

/-- C4 fails as stated for the file reader: handleFileChange attaches only
an onload callback and no error handler, so a failed read changes nothing;
at the initial state the machine stays idle with no error message instead
of entering the error state. -/
theorem C4_counterexample : ¬ c4Claim := by
  intro h
  have hc := (h initState "someReadError").2.1.1
  exact absurd hc (by decide)

/-- C4 (amended): errors from the camera and from either AI API call are
caught and surfaced as a single user-facing message, the handler setting
the machine to the error state with that non-null string and touching no
other field; a file-reader error is not handled at all (no error callback
is attached) and leaves the state unchanged, the image silently not added;
no recovery is attempted by the handlers themselves. -/
theorem C4_amended_error_surfacing (st : AppState) (msg : String) :
    step .cameraFail st =
      { st with loadingState := .ERROR, error := some cameraErrorMsg } ∧
    step (.analyzeDone (.error msg)) st =
      { st with loadingState := .ERROR, error := some msg } ∧
    step (.generateDone (.error msg)) st =
      { st with loadingState := .ERROR, error := some msg } ∧
    step .fileReadFail st = st :=
  ⟨rfl, rfl, rfl, rfl⟩

/-! ## Reset (C6) -/

/-- C6: the reset action restores the entire session state to its initial
values: the images, ingredients and recipes lists become empty, the error
message becomes null, servings becomes 1, cuisine becomes Open, the
pending ingredient input becomes empty, the view state returns to idle,
and reset is idempotent. -/
theorem C6_reset_restores_initial (st : AppState) :
    (step .reset st).images = [] ∧
    (step .reset st).ingredients = [] ∧
    (step .reset st).recipes = [] ∧
    (step .reset st).error = none ∧
    (step .reset st).servings = 1 ∧
    (step .reset st).cuisine = "Open" ∧
    (step .reset st).newIngredientInput = "" ∧
    (step .reset st).loadingState = .IDLE ∧
    step .reset (step .reset st) = step .reset st :=
  ⟨rfl, rfl, rfl, rfl, rfl, rfl, rfl, rfl, rfl⟩

/-! ## Manual ingredient entry (C7) -/

theorem jsTrim_of_all_space (s : String) (h : s.data.all isSpaceJS = true) :
    jsTrim s = "" := by
  have h1 : s.data.dropWhile isSpaceJS = [] := by
    rw [List.dropWhile_eq_nil_iff]
    intro x hx
    exact List.all_eq_true.mp h x hx
  simp [jsTrim, h1]

/-- C7: for every pending-input string, handing the add action to the
model appends the record with the trimmed input as name and an empty
quantity and clears the input when the trimmed input is nonempty, and
leaves the whole state unchanged when the input is empty or
whitespace-only. Every ingredient field is a total string, so the non-null
part of the claim is carried by the types. -/
theorem C7_add_ingredient (st : AppState) :
    (jsTrim st.newIngredientInput ≠ "" →
      step .addIng st =
        { st with
          ingredients := st.ingredients ++
            [{ name := jsTrim st.newIngredientInput, quantity := "" }],
          newIngredientInput := "" }) ∧
    (st.newIngredientInput.data.all isSpaceJS = true → step .addIng st = st) := by
  constructor
  · intro h
    show addIngredient st = _
    rw [addIngredient, if_pos h]
  · intro h
    have ht := jsTrim_of_all_space _ h
    show addIngredient st = st
    rw [addIngredient, if_neg (by simp [ht])]

/-- Witness for C7: input with padding appends the trimmed name and clears
the field; whitespace-only input changes nothing. -/
theorem C7_add_ingredient_witness :
    jsTrim "  2 eggs " ≠ "" ∧
    step .addIng
      { loadingState := .REVIEW_INGREDIENTS, images := [], ingredients := [],
        recipes := [], error := none, servings := 1, cuisine := "Open",
        newIngredientInput := "  2 eggs " } =
      { loadingState := .REVIEW_INGREDIENTS, images := [],
        ingredients := [{ name := "2 eggs", quantity := "" }],
        recipes := [], error := none, servings := 1, cuisine := "Open",
        newIngredientInput := "" } ∧
    ("   ").data.all isSpaceJS = true ∧
    step .addIng
      { loadingState := .REVIEW_INGREDIENTS, images := [], ingredients := [],
        recipes := [], error := none, servings := 1, cuisine := "Open",
        newIngredientInput := "   " } =
      { loadingState := .REVIEW_INGREDIENTS, images := [], ingredients := [],
        recipes := [], error := none, servings := 1, cuisine := "Open",
        newIngredientInput := "   " } := by
  refine ⟨by decide, ?_, by decide, ?_⟩
  · exact ((C7_add_ingredient _).1 (by decide)).trans (by decide)
  · exact (C7_add_ingredient _).2 (by decide)

/-! ## Servings (C8) -/

/-- C8: the servings count starts at 1, the increment button adds 1, the
decrement button clamps at 1 (decrementing from 1 leaves it at 1), reset
sets it back to 1, and in every reachable state servings is at least 1. -/
theorem C8_servings_at_least_one :
    initState.servings = 1 ∧
    (∀ st : AppState, (step .incServings st).servings = st.servings + 1) ∧
    (∀ st : AppState, (step .decServings st).servings = max 1 (st.servings - 1)) ∧
    (∀ st : AppState, st.servings = 1 → (step .decServings st).servings = 1) ∧
    (∀ st : AppState, (step .reset st).servings = 1) ∧
    (∀ st : AppState, Reachable st → 1 ≤ st.servings) := by
  refine ⟨rfl, fun st => rfl, fun st => rfl, ?_, fun st => rfl, ?_⟩
  · intro st h
    show max 1 (st.servings - 1) = 1
    rw [h]
    omega
  · intro st h
    induction h with
    | init => exact le_refl 1
    | next st ev hr he ih =>
      cases ev with
      | incServings =>
        show 1 ≤ st.servings + 1
        omega
      | decServings =>
        exact le_max_left 1 _
      | reset => exact le_refl 1
      | analyzeStart =>
        simp only [step]
        split
        · exact ih
        · exact ih
      | analyzeDone res =>
        rcases res with msg | ings
        · exact ih
        · simp only [step]
          split
          · exact ih
          · exact ih
      | generateDone res =>
        rcases res with msg | rs
        · exact ih
        · exact ih
      | addIng =>
        simp only [step, addIngredient]
        split
        · exact ih
        · exact ih
      | startCamera => exact ih
      | cameraFail => exact ih
      | capture img => exact ih
      | cancelCapture => exact ih
      | fileLoaded img => exact ih
      | fileReadFail => exact ih
      | removeImage i => exact ih
      | generateStart => exact ih
      | setCuisine c => exact ih
      | setInput text => exact ih
      | removeIng i => exact ih

/-- Witness for C8 at concrete inputs: decrementing from the initial 1
stays at 1, and the initial state satisfies the invariant. -/
theorem C8_servings_witness :
    (step .decServings initState).servings = 1 ∧ 1 ≤ initState.servings := by
  have h := C8_servings_at_least_one
  exact ⟨h.2.2.2.1 initState rfl, h.2.2.2.2.2 initState Reachable.init⟩

/-! ## The AI service functions (C5, C10) -/

/-- Outcome of one generateContent call: the promise rejects, or it
resolves with an optional response text. -/
inductive GenResult where
  | apiError
  | response (text : Option String)

/-- The fixed message identifyIngredientsFromImage throws. -/
def identifyFailMsg : String :=
  "Failed to identify ingredients from the images. Please try clearer pictures."

/-- The fixed message fetchRecipesFromIngredients throws. -/
def recipesFailMsg : String :=
  "Failed to generate recipes. The ingredients might not be suitable for common dishes."

/-- The text JSON.parse receives: the trimmed response text when that is
nonempty, else the empty-array literal. -/
def jsonTextOf (t : Option String) : String :=
  match t with
  | none => "[]"
  | some s => if jsTrim s = "" then "[]" else jsTrim s

/-- identifyIngredientsFromImage: the call and the parse stand inside a try
block whose catch rethrows one fixed message. The JSON.parse step is a
parameter, so every behaviour of the parser, decoding a list or throwing,
is covered. -/
def identifyIngredientsFromImage
    (parse : String → Except Unit (List Ingredient)) (res : GenResult) :
    Except String (List Ingredient) :=
  match res with
  | .apiError => .error identifyFailMsg
  | .response t =>
      match parse (jsonTextOf t) with
      | .ok ings => .ok ings
      | .error _ => .error identifyFailMsg

/-- fetchRecipesFromIngredients: the same structure with the recipe shape
and its fixed message. -/
def fetchRecipesFromIngredients
    (parse : String → Except Unit (List Recipe)) (res : GenResult) :
    Except String (List Recipe) :=
  match res with
  | .apiError => .error recipesFailMsg
  | .response t =>
      match parse (jsonTextOf t) with
      | .ok rs => .ok rs
      | .error _ => .error recipesFailMsg

/-- C5: each of the two service functions either returns a decoded list of
records of its fixed shape or throws exactly its own fixed message,
whatever the call outcome and whatever the parser does: no underlying API
or JSON-parsing error escapes with any other message. -/
theorem C5_service_error_contract
    (parseI : String → Except Unit (List Ingredient))
    (parseR : String → Except Unit (List Recipe)) (res : GenResult) :
    ((∃ l, identifyIngredientsFromImage parseI res = .ok l) ∨
      identifyIngredientsFromImage parseI res = .error identifyFailMsg) ∧
    ((∃ l, fetchRecipesFromIngredients parseR res = .ok l) ∨
      fetchRecipesFromIngredients parseR res = .error recipesFailMsg) := by
  constructor
  · rcases res with _ | t
    · exact Or.inr rfl
    · rcases hp : parseI (jsonTextOf t) with e | l
      · exact Or.inr (by simp [identifyIngredientsFromImage, hp])
      · exact Or.inl ⟨l, by simp [identifyIngredientsFromImage, hp]⟩
  · rcases res with _ | t
    · exact Or.inr rfl
    · rcases hp : parseR (jsonTextOf t) with e | l
      · exact Or.inr (by simp [fetchRecipesFromIngredients, hp])
      · exact Or.inl ⟨l, by simp [fetchRecipesFromIngredients, hp]⟩

/-- C10: when the response text is absent, empty or whitespace-only, both
service functions hand the empty-array literal to the parser and return
the empty list (JSON.parse on that literal gives the empty array, stated
as the hypotheses on the parser); and in the app an empty identified list
routes to the error state with the no-ingredients message instead of the
review screen. -/
theorem C10_empty_text_empty_list
    (parseI : String → Except Unit (List Ingredient))
    (parseR : String → Except Unit (List Recipe))
    (t : Option String) (st : AppState)
    (hpi : parseI "[]" = .ok [])
    (hpr : parseR "[]" = .ok [])
    (ht : t = none ∨ ∃ s, t = some s ∧ s.data.all isSpaceJS = true) :
    identifyIngredientsFromImage parseI (.response t) = .ok [] ∧
    fetchRecipesFromIngredients parseR (.response t) = .ok [] ∧
    step (.analyzeDone (.ok [])) st =
      { st with error := some noIngredientsMsg, loadingState := .ERROR } := by
  have hjt : jsonTextOf t = "[]" := by
    rcases ht with h | ⟨s, hs, hall⟩
    · rw [h]
      rfl
    · rw [hs]
      simp [jsonTextOf, jsTrim_of_all_space s hall]
  refine ⟨?_, ?_, rfl⟩
  · simp [identifyIngredientsFromImage, hjt, hpi]
  · simp [fetchRecipesFromIngredients, hjt, hpr]

/-- Witness for C10: a concrete parser that decodes the empty-array
literal, a whitespace-only response text, and the analyzing state. -/
theorem C10_empty_text_empty_list_witness :
    identifyIngredientsFromImage
      (fun s => if s = "[]" then .ok [] else .error ())
      (.response (some "  ")) = .ok [] ∧
    fetchRecipesFromIngredients
      (fun s => if s = "[]" then .ok [] else .error ())
      (.response (some "  ")) = .ok [] ∧
    step (.analyzeDone (.ok []))
      { initState with loadingState := .ANALYZING } =
      { initState with loadingState := .ERROR, error := some noIngredientsMsg } := by
  have h := C10_empty_text_empty_list
    (fun s => if s = "[]" then .ok [] else .error ())
    (fun s => if s = "[]" then .ok [] else .error ())
    (some "  ") { initState with loadingState := .ANALYZING }
    rfl rfl (Or.inr ⟨"  ", rfl, by decide⟩)
  exact ⟨h.1, h.2.1, h.2.2.trans (by decide)⟩

end CulinaryVision
